import Mathlib

/-!
Verification of the poll / dedupe / enrich / queue / approve / publish
pipeline of the AI_confluence__KB repository.  Each JavaScript function
relevant to the verified properties is shallow-embedded as an executable
Lean definition: asynchronous effects become explicit event traces,
external-call outcomes (Gmail fetches, Gemini and Vertex predictions, Jira
lookups, Confluence posts) become explicit `Except`/`Option` parameters,
and the mutable module-level state becomes explicit state passing.
-/

/-- Model of the JavaScript expression `x || d` applied to an optional
string field: `undefined`, `null` and the empty string are falsy and
select the default `d`. -/
def orElseStr (o : Option String) (d : String) : String :=
  match o with
  | some s => if s = "" then d else s
  | none => d

/-- Observable effects emitted while a cycle runs: a per-message Gmail
fetch (`gmail.users.messages.get`), a push onto the review queue, a Gemini
summarization call, a review email (`sendReviewEmail`), and a Confluence
publish attempt (success, or failure caught by the per-item handler). -/
inductive Ev where
  | fetched (id : String)
  | enqueued (id : String)
  | summarized (id : String)
  | notified (id : String) (addr : String)
  | published (subject : String)
  | pubFailed (subject : String)
  deriving DecidableEq

/-- Item identifier an event is about, if any. -/
def Ev.idOf : Ev → Option String
  | Ev.fetched i => some i
  | Ev.enqueued i => some i
  | Ev.summarized i => some i
  | Ev.notified i _ => some i
  | Ev.published _ => none
  | Ev.pubFailed _ => none

/-- Subject of a Confluence publish attempt, if the event is one. -/
def Ev.pubSubject : Ev → Option String
  | Ev.published s => some s
  | Ev.pubFailed s => some s
  | _ => none

/-- Review-queue entry of the in-memory variants (index.js line 99,
part_004 line 94, part_001 line 329): a subject and a body. -/
structure Entry04 where
  subject : String
  body : String
  deriving DecidableEq

/-- Module-level mutable state of the in-memory variants: the
`processedEmails` set (modelled as a duplicate-free-by-use list) and the
`reviewQueue` array. -/
structure MemState where
  processedEmails : List String
  reviewQueue : List Entry04
  deriving DecidableEq

/-- Result of one poll cycle over the in-memory state: the final state,
the trace of effects, and whether the loop ran to completion (`false`
means an exception aborted it and was caught at the cycle boundary). -/
structure CycleOut where
  final : MemState
  events : List Ev
  completed : Bool
  deriving DecidableEq

/-- Headers and decoded body of a full Gmail message, as consumed by the
poll loops; `none` models a missing `Subject`/`From` header. -/
structure FullMsg where
  subject : Option String
  sender : Option String
  bodyData : String
  deriving DecidableEq

/-- One element of `res.data.messages` paired with the outcome of the
`gmail.users.messages.get` call for it; `Except.error` models the fetch
throwing. -/
structure MsgRef where
  id : String
  fetch : Except Unit FullMsg

/-- Embedding of `pollEmails` (index.js lines 60-107; part_004 lines
55-102 is the same function): skip ids in `processedEmails`, fetch the
full message, build the placeholder summary, push onto `reviewQueue`,
record the id.  The `try`/`catch` wraps the whole `for` loop, so a fetch
error abandons the remaining messages; `completed := false` records
that. -/
def pollEmailsV1 (st : MemState) : List MsgRef → CycleOut
  | [] => ⟨st, [], true⟩
  | m :: rest =>
    if m.id ∈ st.processedEmails then pollEmailsV1 st rest
    else
      match m.fetch with
      | Except.error _ => ⟨st, [], false⟩
      | Except.ok d =>
        let subj := orElseStr d.subject ("No Subject")
        let entry : Entry04 := ⟨subj, "Summary placeholder for: " ++ subj⟩
        let r := pollEmailsV1 ⟨st.processedEmails ++ [m.id], st.reviewQueue ++ [entry]⟩ rest
        ⟨r.final, Ev.fetched m.id :: Ev.enqueued m.id :: r.events, r.completed⟩

/-- The `for (const item of reviewQueue)` loop of `postToConfluence`
(part_004 lines 111-138): each axios post either succeeds or fails, and a
failure is caught inside the loop body, so every entry is attempted. -/
def postLoop (pub : Entry04 → Bool) : List Entry04 → List Ev
  | [] => []
  | item :: rest =>
    (if pub item then Ev.published item.subject else Ev.pubFailed item.subject)
      :: postLoop pub rest

/-- Embedding of `postToConfluence` (part_004 lines 105-142; index.js
lines 157-193 is the same function): on an empty queue return at once;
otherwise attempt every entry and then execute `reviewQueue = []`.
Returns the new queue and the trace of publish attempts; `pub` gives the
outcome of each axios call. -/
def postToConfluence (queue : List Entry04) (pub : Entry04 → Bool) :
    List Entry04 × List Ev :=
  if queue.isEmpty then (queue, []) else ([], postLoop pub queue)

/-- Uppercase ASCII letter test: the `[A-Z]` character class. -/
def isUp (c : Char) : Bool := decide ('A' ≤ c) && decide (c ≤ 'Z')

/-- ASCII digit test: the `\d` character class. -/
def isDig (c : Char) : Bool := decide ('0' ≤ c) && decide (c ≤ '9')

/-- Whole-string form of the fixed pattern `[A-Z]+-\d+`: a nonempty
uppercase run, a hyphen, then a nonempty digit run and nothing else. -/
def keyPat (l : List Char) : Bool :=
  match l.takeWhile isUp, l.dropWhile isUp with
  | _ :: _, c :: ds => decide (c = '-') && decide (ds ≠ []) && ds.all isDig
  | _, _ => false

/-- One anchored attempt of the regex `[A-Z]+-\d+` at the start of `l`:
the greedy uppercase run must be nonempty and be followed by a hyphen and
at least one digit; the digit run is greedy.  (Backtracking the `[A-Z]+`
cannot help: any shorter run is followed by an uppercase letter, not a
hyphen, so this function is the exact per-position semantics.) -/
def matchAt (l : List Char) : Option (List Char) :=
  let us := l.takeWhile isUp
  if us = [] then none
  else
    match l.dropWhile isUp with
    | [] => none
    | c :: rest =>
      if c = '-' then
        let ds := rest.takeWhile isDig
        if ds = [] then none else some (us ++ c :: ds)
      else none

/-- Leftmost-match search of `subject.match(/[A-Z]+-\d+/)`: try each start
position left to right and return the first anchored match. -/
def firstMatch : List Char → Option (List Char)
  | [] => none
  | c :: cs =>
    match matchAt (c :: cs) with
    | some m => some m
    | none => firstMatch cs

/-- Embedding of `extractJiraTicket` (index.js lines 336-339):
`const match = subject.match(/[A-Z]+-\d+/); return match ? match[0] : null`.
Total, hence it never throws. -/
def extractJiraTicket (subject : String) : Option String :=
  (firstMatch subject.data).map (fun l => String.mk l)

/-- Review-queue entry of the persisted variant (index.js lines 317-323);
the JavaScript field `from` is rendered `sender`, and `summary` holds the
decoded email body. -/
structure QueueItem where
  id : String
  subject : String
  summary : String
  sender : String
  jiraTicket : Option String
  deriving DecidableEq

/-- The persisted `state` object of index.js line 265:
`{ processedEmails: [], reviewQueue: [] }`. -/
structure AppState where
  processedEmails : List String
  reviewQueue : List QueueItem
  deriving DecidableEq

/-- Message reference with fetch outcome for the persisted poll loop. -/
structure PMsg where
  id : String
  fetch : Except Unit FullMsg

/-- Result of the persisted poll cycle: final state, effect trace, and
whether `saveState()` at the end of the loop was reached (`false` when a
fetch threw and the `catch` at the cycle boundary skipped it). -/
structure PollOut where
  state : AppState
  events : List Ev
  saved : Bool
  deriving DecidableEq

/-- Embedding of the persisted `pollEmails` (index.js lines 281-333):
`if (state.processedEmails.includes(msg.id)) continue;` then fetch, build
the queue entry with `extractJiraTicket(subjectHeader)`, push it, push the
id, and after the loop call `saveState()`.  The `try`/`catch` wraps the
whole loop, so a fetch error abandons the rest and skips the save. -/
def pollEmails (st : AppState) : List PMsg → PollOut
  | [] => ⟨st, [], true⟩
  | m :: rest =>
    if m.id ∈ st.processedEmails then pollEmails st rest
    else
      match m.fetch with
      | Except.error _ => ⟨st, [], false⟩
      | Except.ok d =>
        let subj := orElseStr d.subject ("No Subject")
        let frm := orElseStr d.sender ("Unknown Sender")
        let item : QueueItem := ⟨m.id, subj, d.bodyData, frm, extractJiraTicket subj⟩
        let r := pollEmails ⟨st.processedEmails ++ [m.id], st.reviewQueue ++ [item]⟩ rest
        ⟨r.state, Ev.fetched m.id :: Ev.enqueued m.id :: r.events, r.saved⟩

/-- The structured ticket object built for Gemini (part_001 lines
307-316). -/
structure Ticket where
  key : String
  summary : String
  reporter : String
  status : String
  resolutiondate : String
  description : String
  latestComment : String
  resolutionText : String
  deriving DecidableEq

/-- One issue from the Jira JQL search (part_001 lines 277-318), with the
raw optional fields and the outcome of the Gemini call for it.  The
Gemini response body is modelled as the list of candidates, each either
missing its `content.parts` (`none`) or carrying the part texts. -/
structure JiraIssue where
  key : String
  title : Option String
  reporter : Option String
  status : Option String
  resolutiondate : Option String
  description : String
  comments : List String
  resolutionDesc : Option String
  resolutionName : Option String
  assignee : Option String
  gemini : Except Unit (List (Option (List String)))

/-- Field extraction of part_001 lines 280-316: every `x || default`
becomes `orElseStr`, the description defaults when empty, and the latest
comment is the last element of the comments array. -/
def mkTicket (iss : JiraIssue) : Ticket :=
  { key := iss.key
    summary := orElseStr iss.title ("No title")
    reporter := orElseStr iss.reporter ("Unknown")
    status := orElseStr iss.status ("Unknown")
    resolutiondate := orElseStr iss.resolutiondate ("Unknown")
    description := if iss.description = "" then "No description provided." else iss.description
    latestComment :=
      match iss.comments.getLast? with
      | some c => c
      | none => "No comments provided."
    resolutionText :=
      orElseStr iss.resolutionDesc (orElseStr iss.resolutionName ("No resolution details provided.")) }

/-- Embedding of `getGeminiSummary` (part_001 lines 193-241): on a thrown
request error return `ticket.summary`; otherwise take candidate 0, join
its part texts with newlines, and fall back to `ticket.summary` when the
candidate or its parts are missing or the joined text is empty, exactly
the `candidate?.content?.parts?.map(p => p.text).join("\n") || ticket.summary`
expression. -/
def getGeminiSummary (tk : Ticket) (resp : Except Unit (List (Option (List String)))) : String :=
  match resp with
  | Except.error _ => tk.summary
  | Except.ok cands =>
    match cands with
    | [] => tk.summary
    | cand :: _ =>
      match cand with
      | none => tk.summary
      | some parts =>
        let s := String.intercalate "\n" parts
        if s = "" then tk.summary else s

/-- Embedding of `pollJiraTickets` (part_001 lines 243-354): per issue,
compute `assigneeEmail = fields.assignee?.emailAddress || JIRA_USER`, and
when it is truthy and the key is not in `processedEmails`, call Gemini,
push `[key] title` with the summary onto `reviewQueue`, send the review
email, and record the key.  `sendReviewEmail` and `getGeminiSummary` catch
their own errors, so the loop always completes. -/
def pollJiraTickets (ju : String) (st : MemState) : List JiraIssue → CycleOut
  | [] => ⟨st, [], true⟩
  | iss :: rest =>
    let tk := mkTicket iss
    let assigneeEmail := orElseStr iss.assignee ju
    if assigneeEmail ≠ "" ∧ iss.key ∉ st.processedEmails then
      let body := getGeminiSummary tk iss.gemini
      let entry : Entry04 := ⟨"[" ++ iss.key ++ "] " ++ tk.summary, body⟩
      let r := pollJiraTickets ju ⟨st.processedEmails ++ [iss.key], st.reviewQueue ++ [entry]⟩ rest
      ⟨r.final,
        Ev.summarized iss.key :: Ev.enqueued iss.key :: Ev.notified iss.key assigneeEmail :: r.events,
        r.completed⟩
    else pollJiraTickets ju st rest

/-- Embedding of `response.predictions[0]?.summary || body` (part_001
line 75): an element is `none` when the prediction lacks a `summary`
field; an empty predictions array or an empty summary string falls back to
the raw body. -/
def vertexSummary (body : String) (predictions : List (Option String)) : String :=
  match predictions with
  | [] => body
  | p :: _ =>
    match p with
    | none => body
    | some s => if s = "" then body else s

/-- One listed message for `fetchAndSummarizeEmails`, with its snippet and
the outcome of the Vertex predict call. -/
structure VMsg where
  id : String
  snippet : String
  predict : Except Unit (List (Option String))

/-- Embedding of `fetchAndSummarizeEmails` (part_001 lines 54-81): the
predict call has no surrounding `catch`, so a thrown error aborts the
whole loop (the `/run` handler catches it); on success the draft
`(title, summary)` is created.  Returns the created drafts and whether the
loop completed.  Draft creation itself is modelled as succeeding. -/
def fetchAndSummarizeEmails : List VMsg → List (String × String) × Bool
  | [] => ([], true)
  | m :: rest =>
    match m.predict with
    | Except.error _ => ([], false)
    | Except.ok preds =>
      let s := vertexSummary m.snippet preds
      let r := fetchAndSummarizeEmails rest
      (("Internal Ticket Summary: " ++ m.id, s) :: r.1, r.2)

/-- Result of `getJiraTicketInfo` (index.js lines 342-360): the optional
assignee email and whether `status.name === "Done"`. -/
structure JiraInfo where
  assignee : Option String
  resolved : Bool
  deriving DecidableEq

/-- Embedding of `processReviewQueue` (index.js lines 386-397): for each
queue item look up its ticket; on `null` continue; when the ticket is
resolved and the assignee email is truthy, send the review email.  Nothing
in the function mutates the queue or marks the item. -/
def processReviewQueue (lookup : Option String → Option JiraInfo) :
    List QueueItem → List Ev
  | [] => []
  | item :: rest =>
    match lookup item.jiraTicket with
    | none => processReviewQueue lookup rest
    | some info =>
      match info.assignee with
      | some a =>
        if info.resolved && a != "" then
          Ev.notified item.id a :: processReviewQueue lookup rest
        else processReviewQueue lookup rest
      | none => processReviewQueue lookup rest

/-- The `setInterval(processReviewQueue, 2 * 60 * 1000)` timer (index.js
line 433): `n` consecutive ticks over an unchanged queue, concatenating
the notification traces. -/
def notifyTicks (lookup : Option String → Option JiraInfo) (q : List QueueItem) :
    Nat → List Ev
  | 0 => []
  | Nat.succ n => processReviewQueue lookup q ++ notifyTicks lookup q n

/-- Embedding of the single-page `postToConfluence` (index.js lines
400-427): one axios post whose failure is caught inside the function, so
it returns normally either way; the trace records the attempt. -/
def postToConfluenceSingle (subject : String) (_summaryText : String) (pubOk : Bool) :
    List Ev :=
  if pubOk then [Ev.published subject] else [Ev.pubFailed subject]

/-- Embedding of the `/review/post` handler (index.js lines 436-445):
publish the posted subject and summary, then
`state.reviewQueue = state.reviewQueue.filter((i) => i.subject !== subject)`
and `saveState()`. -/
def reviewPostHandler (st : AppState) (subject summaryText : String) (pubOk : Bool) :
    AppState × List Ev :=
  (⟨st.processedEmails, st.reviewQueue.filter (fun i => i.subject != subject)⟩,
   postToConfluenceSingle subject summaryText pubOk)

/-- The initial `state` value of index.js line 265. -/
def initState : AppState := ⟨[], []⟩

/-- Embedding of the state load of index.js lines 264-273: `none` models a
missing state file; otherwise the argument is the outcome of
`JSON.parse(fs.readFileSync(...))`.  The parse is wrapped in
`try`/`catch`, so a corrupt file keeps the initial state and logs
a warning (the returned Bool). -/
def loadState : Option (Except Unit AppState) → AppState × Bool
  | none => (initState, false)
  | some (Except.ok s) => (s, false)
  | some (Except.error _) => (initState, true)

/-- Embedding of the state load of part_001 lines 438-442:
`if (fs.existsSync(stateFile)) state = JSON.parse(fs.readFileSync(stateFile))`
with no `try`/`catch`, so a parse error propagates out of the load.  The
`state` object there is a map from handled ids to `true`, modelled as the
list of handled ids. -/
def loadStateV3 : Option (Except Unit (List String)) → Except Unit (List String)
  | none => Except.ok []
  | some r => r

/-- Crash model of `saveState` (index.js lines 276-278):
`fs.writeFileSync(STATE_FILE, JSON.stringify(state, null, 2))` truncates
the file and writes the new bytes in place, so a crash after `j` bytes
leaves exactly the first `j` characters of the new document on disk. -/
def saveStateCrashed (content : String) (j : Nat) : String :=
  String.mk (content.data.take j)

/-- Serialized initial state, `JSON.stringify(state, null, 2)` of
`{ processedEmails: [], reviewQueue: [] }`. -/
def oldStateDoc : String :=
  "\x7b\n  \"processedEmails\": [],\n  \"reviewQueue\": []\n\x7d"

/-- Serialized state after one id was processed and its entry was already
posted and removed from the queue. -/
def newStateDoc : String :=
  "\x7b\n  \"processedEmails\": [\n    \"m1\"\n  ],\n  \"reviewQueue\": []\n\x7d"

/-- Relation `k` begins `l` (there is a tail `t` with `k ++ t = l`). -/
def begOf (k l : List Char) : Prop := ∃ t, k ++ t = l

/-- Relation `k` ends `l` (there is a front `t` with `t ++ k = l`). -/
def endOf (k l : List Char) : Prop := ∃ t, t ++ k = l

/-- Relation `k` occurs inside `l` as a contiguous substring. -/
def subOf (k l : List Char) : Prop := ∃ u v, u ++ k ++ v = l

/-- Fetched detail used by the concrete scenarios. -/
def dFull : FullMsg := ⟨some ("Internal printer issue"), some ("x@y.z"), "raw body"⟩

/-- Concrete message list for the dedup scenario: the listed id is already
in the dedup store. -/
def pmsgs0 : List PMsg := [⟨"m1", Except.ok dFull⟩]

/-- Concrete Jira issue whose key is already in the dedup store. -/
def jiss0 : JiraIssue :=
  ⟨"m1", some ("T"), none, some ("Resolved"), none, "D", [], none, none,
    some ("a@x.y"), Except.error ()⟩

/-- Concrete Jira issue for the enrichment-fallback counterexample: the
Gemini call throws, the title and the description differ. -/
def jissC5 : JiraIssue :=
  ⟨"SC-1", some ("Printer broken"), none, some ("Resolved"), none,
    "Desc text", [], none, none, some ("a@x.y"), Except.error ()⟩

/-- Concrete review-queue item whose ticket resolves to an assignee. -/
def itemC6 : QueueItem := ⟨"m1", "Internal outage", "Sum", "u@x.y", some ("SC-1")⟩

/-- Concrete ticket lookup: SC-1 is resolved with an assignee. -/
def lkC6 : Option String → Option JiraInfo :=
  fun t => if t == some ("SC-1") then some ⟨some ("as@x.y"), true⟩ else none

/-- Queue for the subject-keyed removal scenario: two distinct items share
the subject S, a third has subject T. -/
def stC10 : AppState :=
  ⟨["m1", "m2", "m3"],
   [⟨"m1", "S", "b1", "u", none⟩, ⟨"m2", "S", "b2", "u", none⟩,
    ⟨"m3", "T", "b3", "u", none⟩]⟩

/-- Cycle where the first item's fetch throws and the second would
succeed. -/
def msgsC3a : List MsgRef := [⟨"m1", Except.error ()⟩, ⟨"m2", Except.ok dFull⟩]

/-- Successfully processed head of a cycle. -/
def preC3 : List MsgRef := [⟨"m0", Except.ok dFull⟩]

/-- A message whose fetch throws. -/
def mErr : MsgRef := ⟨"m1", Except.error ()⟩

/-- Messages after the failing one. -/
def restC3 : List MsgRef := [⟨"m2", Except.ok dFull⟩]

/-- Concrete ticket for the enrichment-fallback witness. -/
def tkW : Ticket := ⟨"SC-2", "Title", "R", "Resolved", "d", "Raw", "c", "r"⟩

/-- Concrete Vertex message whose predict call throws. -/
def vmW : VMsg := ⟨"m9", "snip", Except.error ()⟩

/-! ## Helper lemmas -/

lemma postLoop_length (pub : Entry04 → Bool) :
    ∀ q, (postLoop pub q).length = q.length
  | [] => rfl
  | item :: rest => by
    simp [postLoop, postLoop_length pub rest]

lemma postLoop_subjects (pub : Entry04 → Bool) :
    ∀ q, (postLoop pub q).filterMap Ev.pubSubject = q.map Entry04.subject
  | [] => rfl
  | item :: rest => by
    cases hp : pub item <;>
      simp [postLoop, hp, Ev.pubSubject, postLoop_subjects pub rest]

lemma pollEmailsV1_queue_extends (msgs : List MsgRef) : ∀ st : MemState,
    ∃ tail, (pollEmailsV1 st msgs).final.reviewQueue = st.reviewQueue ++ tail := by
  induction msgs with
  | nil => exact fun st => ⟨[], (List.append_nil _).symm⟩
  | cons m rest ih =>
    intro st
    by_cases hm : m.id ∈ st.processedEmails
    · simpa [pollEmailsV1, hm] using ih st
    · cases hf : m.fetch with
      | error e => exact ⟨[], by simp [pollEmailsV1, hm, hf]⟩
      | ok d =>
        obtain ⟨t, ht⟩ := ih ⟨st.processedEmails ++ [m.id], st.reviewQueue ++
          [⟨orElseStr d.subject ("No Subject"),
            "Summary placeholder for: " ++ orElseStr d.subject ("No Subject")⟩]⟩
        refine ⟨⟨orElseStr d.subject ("No Subject"),
            "Summary placeholder for: " ++ orElseStr d.subject ("No Subject")⟩ :: t, ?_⟩
        simp only [pollEmailsV1, hm, if_false, hf]
        rw [ht]
        simp

/-! ## Claims -/

/-- C2: the claim says a queue entry whose publish fails stays in the
review queue after the drain.  Counterexample: a one-entry queue whose
publish call fails ends with an empty queue — `postToConfluence` executes
`reviewQueue = []` regardless of the caught failure, dropping the
entry. -/
theorem drain_drops_failed_entry :
    (postToConfluence [⟨"S1", "B1"⟩] (fun _ => false)).2 = [Ev.pubFailed ("S1")] ∧
    (postToConfluence [⟨"S1", "B1"⟩] (fun _ => false)).1 = [] := ⟨rfl, rfl⟩

/-- C2 (amended): after `postToConfluence` returns, the review queue is
empty regardless of which publish calls failed; every entry is attempted
exactly once (a per-entry failure is caught and does not stop the loop or
crash), but failed entries are dropped rather than retained for retry. -/
theorem drain_clears_queue_each_entry_attempted (q : List Entry04) (pub : Entry04 → Bool) :
    (postToConfluence q pub).1 = [] ∧ (postToConfluence q pub).2.length = q.length := by
  cases q with
  | nil => exact ⟨rfl, rfl⟩
  | cons a l =>
    refine ⟨rfl, ?_⟩
    show (postLoop pub (a :: l)).length = (a :: l).length
    exact postLoop_length pub (a :: l)

/-- C8: polling only appends to the review queue, and draining attempts
the publish of every queued entry in exactly the queue's (arrival) order:
the sequence of attempted subjects equals the queue's subjects. -/
theorem drain_publishes_in_fifo_order (st : MemState) (msgs : List MsgRef)
    (q : List Entry04) (pub : Entry04 → Bool) :
    (∃ tail, (pollEmailsV1 st msgs).final.reviewQueue = st.reviewQueue ++ tail) ∧
    (postToConfluence q pub).2.filterMap Ev.pubSubject = q.map Entry04.subject := by
  refine ⟨pollEmailsV1_queue_extends msgs st, ?_⟩
  cases q with
  | nil => rfl
  | cons a l =>
    show (postLoop pub (a :: l)).filterMap Ev.pubSubject = (a :: l).map Entry04.subject
    exact postLoop_subjects pub (a :: l)

/-- C7: the claim says a corrupt state file always yields the empty state
with a warning and no escaping exception.  Counterexample: the load of
part_001 lines 438-442 has no `try`/`catch`, so the parse error propagates
out of the load (startup fails) instead of producing the empty state. -/
theorem loadV3_error_escapes_cex :
    loadStateV3 (some (Except.error ())) = Except.error () ∧
    loadStateV3 (some (Except.error ())) ≠ Except.ok [] :=
  ⟨rfl, fun h => Except.noConfusion h⟩

/-- C7 (amended): the index.js load (lines 264-273) is total: a missing
file or a parse error yields the initial empty state, the error case with
a warning; but the part_001 variant (lines 438-442) forwards the parse
outcome unguarded, so a corrupt file raises at startup there. -/
theorem state_load_behavior :
    loadState none = (initState, false) ∧
    (∀ s : AppState, loadState (some (Except.ok s)) = (s, false)) ∧
    loadState (some (Except.error ())) = (initState, true) ∧
    (∀ r, loadStateV3 (some r) = r) ∧
    loadStateV3 none = Except.ok [] :=
  ⟨rfl, fun _ => rfl, rfl, fun _ => rfl, rfl⟩

/-- C4: the claim says a crash during the state write leaves either the
complete old or the complete new document.  Counterexample: `saveState`
writes in place with `fs.writeFileSync`, so a crash after 31 bytes leaves
a truncated document that is neither. -/
theorem saveState_crash_truncation_cex :
    saveStateCrashed newStateDoc 31 ≠ oldStateDoc ∧
    saveStateCrashed newStateDoc 31 ≠ newStateDoc := by
  exact ⟨by decide, by decide⟩

/-- C4 (amended): only a completed in-place write yields the new document;
for any distinct nonempty old and new contents there is a crash point
leaving a file that is neither (truncation is possible), and the next
index.js load of an unparsable file falls back to the empty initial state
with a warning — reflecting neither the pre- nor the post-write state. -/
theorem saveState_inplace_write_not_atomic (old new : String)
    (h1 : old ≠ "") (h2 : new ≠ "") :
    saveStateCrashed new new.data.length = new ∧
    (∃ j, saveStateCrashed new j ≠ old ∧ saveStateCrashed new j ≠ new) ∧
    loadState (some (Except.error ())) = (initState, true) := by
  refine ⟨?_, ⟨0, ?_, ?_⟩, rfl⟩
  · show String.mk (new.data.take new.data.length) = new
    rw [List.take_length new.data]
  · show String.mk (new.data.take 0) ≠ old
    simp only [List.take_zero]
    exact fun h => h1 h.symm
  · show String.mk (new.data.take 0) ≠ new
    simp only [List.take_zero]
    exact fun h => h2 h.symm

/-- Witness for the amended C4 theorem at the concrete serialized
states. -/
theorem saveState_inplace_write_not_atomic_w :
    saveStateCrashed newStateDoc newStateDoc.data.length = newStateDoc ∧
    (∃ j, saveStateCrashed newStateDoc j ≠ oldStateDoc ∧
      saveStateCrashed newStateDoc j ≠ newStateDoc) ∧
    loadState (some (Except.error ())) = (initState, true) :=
  saveState_inplace_write_not_atomic oldStateDoc newStateDoc (by decide) (by decide)

/-- C10: the `/review/post` handler removes review-queue entries keyed by
subject: afterwards no entry with the posted subject remains, every entry
with a different subject survives, and the removal is the same whether the
publish call succeeded or failed. -/
theorem review_post_removes_by_subject (st : AppState) (s sm : String) (b : Bool) :
    (∀ e ∈ ((reviewPostHandler st s sm b).1).reviewQueue, e.subject ≠ s) ∧
    (∀ e ∈ st.reviewQueue, e.subject ≠ s → e ∈ (reviewPostHandler st s sm b).1.reviewQueue) ∧
    (reviewPostHandler st s sm true).1 = (reviewPostHandler st s sm false).1 := by
  refine ⟨?_, ?_, rfl⟩
  · intro e he
    exact bne_iff_ne.mp (List.mem_filter.mp he).2
  · intro e he hne
    exact List.mem_filter.mpr ⟨he, bne_iff_ne.mpr hne⟩

/-- Witness for C10: with two entries sharing subject S and one with
subject T, the T entry survives and the removal is publish-independent. -/
theorem review_post_removes_by_subject_w :
    (⟨"m3", "T", "b3", "u", none⟩ : QueueItem)
        ∈ (reviewPostHandler stC10 ("S") ("sum") true).1.reviewQueue ∧
    (reviewPostHandler stC10 ("S") ("sum") true).1
        = (reviewPostHandler stC10 ("S") ("sum") false).1 :=
  ⟨(review_post_removes_by_subject stC10 ("S") ("sum") true).2.1 _ (by decide) (by decide),
   (review_post_removes_by_subject stC10 ("S") ("sum") true).2.2⟩

lemma pollEmails_skips (msgs : List PMsg) : ∀ (st : AppState) (i : String),
    i ∈ st.processedEmails →
    (∀ ev ∈ (pollEmails st msgs).events, ev.idOf ≠ some i) ∧
    (pollEmails st msgs).state.reviewQueue.filter (fun e => e.id == i)
      = st.reviewQueue.filter (fun e => e.id == i) := by
  induction msgs with
  | nil =>
    intro st i h
    exact ⟨fun ev hev => absurd hev (List.not_mem_nil ev), rfl⟩
  | cons m rest ih =>
    intro st i h
    by_cases hm : m.id ∈ st.processedEmails
    · simpa [pollEmails, hm] using ih st i h
    · have hne : m.id ≠ i := fun he => hm (he ▸ h)
      cases hf : m.fetch with
      | error e =>
        constructor
        · intro ev hev
          simp [pollEmails, hm, hf] at hev
        · simp [pollEmails, hm, hf]
      | ok d =>
        have h' : i ∈ (st.processedEmails ++ [m.id]) := List.mem_append_left _ h
        obtain ⟨ihev, ihq⟩ := ih ⟨st.processedEmails ++ [m.id], st.reviewQueue ++
          [⟨m.id, orElseStr d.subject ("No Subject"), d.bodyData,
            orElseStr d.sender ("Unknown Sender"),
            extractJiraTicket (orElseStr d.subject ("No Subject"))⟩]⟩ i h'
        constructor
        · intro ev hev
          simp only [pollEmails, hm, if_false, hf] at hev
          rcases List.mem_cons.mp hev with h1 | hev
          · simp [h1, Ev.idOf, hne]
          rcases List.mem_cons.mp hev with h2 | hev
          · simp [h2, Ev.idOf, hne]
          · exact ihev ev hev
        · simp only [pollEmails, hm, if_false, hf]
          rw [ihq]
          simp only [List.filter_append]
          have : ((⟨m.id, orElseStr d.subject ("No Subject"), d.bodyData,
              orElseStr d.sender ("Unknown Sender"),
              extractJiraTicket (orElseStr d.subject ("No Subject"))⟩ : QueueItem).id == i)
                = false := beq_eq_false_iff_ne.mpr hne
          simp [List.filter, this]

lemma pollJiraTickets_skips (issues : List JiraIssue) :
    ∀ (ju : String) (st : MemState) (i : String), i ∈ st.processedEmails →
    ∀ ev ∈ (pollJiraTickets ju st issues).events, ev.idOf ≠ some i := by
  induction issues with
  | nil => intro ju st i h ev hev; cases hev
  | cons iss rest ih =>
    intro ju st i h ev hev
    by_cases hg : orElseStr iss.assignee ju ≠ "" ∧ iss.key ∉ st.processedEmails
    · have hne : iss.key ≠ i := fun he => hg.2 (he ▸ h)
      have h' : i ∈ (st.processedEmails ++ [iss.key]) := List.mem_append_left _ h
      simp only [pollJiraTickets] at hev
      rw [if_pos hg] at hev
      rcases List.mem_cons.mp hev with h1 | hev
      · simp [h1, Ev.idOf, hne]
      rcases List.mem_cons.mp hev with h2 | hev
      · simp [h2, Ev.idOf, hne]
      rcases List.mem_cons.mp hev with h3 | hev
      · simp [h3, Ev.idOf, hne]
      · exact ih ju ⟨st.processedEmails ++ [iss.key], _⟩ i h' ev hev
    · simp only [pollJiraTickets] at hev
      rw [if_neg hg] at hev
      exact ih ju st i h ev hev

/-- C1: an item whose id is already recorded in the dedup store is not
re-fetched, re-enqueued, re-summarized or re-notified by a poll cycle:
the persisted `pollEmails` emits no event about that id and leaves the
queue's entries for that id unchanged, and `pollJiraTickets` likewise
emits no summarize, enqueue or notify event for a recorded key. -/
theorem dedup_skips_processed (st : AppState) (msgs : List PMsg)
    (ju : String) (ms : MemState) (issues : List JiraIssue) (i : String)
    (h1 : i ∈ st.processedEmails) (h2 : i ∈ ms.processedEmails) :
    (∀ ev ∈ (pollEmails st msgs).events, ev.idOf ≠ some i) ∧
    ((pollEmails st msgs).state.reviewQueue.filter (fun e => e.id == i)
        = st.reviewQueue.filter (fun e => e.id == i)) ∧
    (∀ ev ∈ (pollJiraTickets ju ms issues).events, ev.idOf ≠ some i) :=
  ⟨(pollEmails_skips msgs st i h1).1, (pollEmails_skips msgs st i h1).2,
   pollJiraTickets_skips issues ju ms i h2⟩

/-- Witness for C1 at a concrete recorded id. -/
theorem dedup_skips_processed_w :
    (∀ ev ∈ (pollEmails ⟨["m1"], []⟩ pmsgs0).events, ev.idOf ≠ some ("m1")) ∧
    ((pollEmails ⟨["m1"], []⟩ pmsgs0).state.reviewQueue.filter (fun e => e.id == "m1")
        = (⟨["m1"], []⟩ : AppState).reviewQueue.filter (fun e => e.id == "m1")) ∧
    (∀ ev ∈ (pollJiraTickets ("ju@x") ⟨["m1"], []⟩ [jiss0]).events,
        ev.idOf ≠ some ("m1")) :=
  dedup_skips_processed ⟨["m1"], []⟩ pmsgs0 ("ju@x") ⟨["m1"], []⟩ [jiss0] ("m1")
    (by decide) (by decide)

lemma pollEmailsV1_append (suf : List MsgRef) : ∀ (pre : List MsgRef) (st : MemState),
    pollEmailsV1 st (pre ++ suf) =
      (if (pollEmailsV1 st pre).completed then
        ⟨(pollEmailsV1 (pollEmailsV1 st pre).final suf).final,
         (pollEmailsV1 st pre).events
           ++ (pollEmailsV1 (pollEmailsV1 st pre).final suf).events,
         (pollEmailsV1 (pollEmailsV1 st pre).final suf).completed⟩
      else pollEmailsV1 st pre) := by
  intro pre
  induction pre with
  | nil => intro st; simp [pollEmailsV1]
  | cons m pre ih =>
    intro st
    by_cases hm : m.id ∈ st.processedEmails
    · show pollEmailsV1 st (m :: (pre ++ suf)) = _
      simp only [pollEmailsV1, hm, if_true]
      exact ih st
    · cases hf : m.fetch with
      | error e =>
        show pollEmailsV1 st (m :: (pre ++ suf)) = _
        simp [pollEmailsV1, hm, hf]
      | ok d =>
        show pollEmailsV1 st (m :: (pre ++ suf)) = _
        simp only [pollEmailsV1, hm, if_false, hf]
        rw [ih]
        by_cases hc : (pollEmailsV1 ⟨st.processedEmails ++ [m.id], st.reviewQueue ++
            [⟨orElseStr d.subject ("No Subject"),
              "Summary placeholder for: " ++ orElseStr d.subject ("No Subject")⟩]⟩ pre).completed
        · simp [hc]
        · simp [hc]

/-- C3: the claim says that when item k of a cycle raises an error, every
other item is still fully processed in that cycle.  Counterexample: the
`try`/`catch` of `pollEmails` wraps the whole loop, so when the fetch of
the first message throws, the second (fetchable) message is neither
fetched nor enqueued — its events are absent and the cycle trace is
empty. -/
theorem poll_error_aborts_cycle_cex :
    Ev.enqueued ("m2") ∉ (pollEmailsV1 ⟨[], []⟩ msgsC3a).events ∧
    Ev.fetched ("m2") ∉ (pollEmailsV1 ⟨[], []⟩ msgsC3a).events ∧
    (pollEmailsV1 ⟨[], []⟩ msgsC3a).events = [] ∧
    (msgsC3a.map MsgRef.id).get? 1 = some ("m2") := by
  exact ⟨by decide, by decide, by decide, by decide⟩

/-- C3 (amended): a per-item error is caught at the cycle boundary, not
the item boundary: the items before the failing one are fully processed
(their state changes and events are exactly those of the error-free
prefix), and the failing item and every item after it are not processed
in that cycle — the cycle's trace ends at the failure. -/
theorem poll_cycle_aborts_on_item_error (st : MemState) (pre : List MsgRef)
    (m : MsgRef) (rest : List MsgRef)
    (hc : (pollEmailsV1 st pre).completed = true)
    (hd : m.id ∉ (pollEmailsV1 st pre).final.processedEmails)
    (he : m.fetch = Except.error ()) :
    pollEmailsV1 st (pre ++ m :: rest) =
      ⟨(pollEmailsV1 st pre).final, (pollEmailsV1 st pre).events, false⟩ := by
  rw [pollEmailsV1_append (m :: rest) pre st, if_pos hc]
  have hstep : pollEmailsV1 (pollEmailsV1 st pre).final (m :: rest)
      = ⟨(pollEmailsV1 st pre).final, [], false⟩ := by
    simp [pollEmailsV1, hd, he]
  rw [hstep]
  simp

/-- Witness for the amended C3 theorem: one good message, then a failing
fetch, then another good message. -/
theorem poll_cycle_aborts_on_item_error_w :
    pollEmailsV1 ⟨[], []⟩ (preC3 ++ mErr :: restC3) =
      ⟨(pollEmailsV1 ⟨[], []⟩ preC3).final, (pollEmailsV1 ⟨[], []⟩ preC3).events, false⟩ :=
  poll_cycle_aborts_on_item_error ⟨[], []⟩ preC3 mErr restC3 (by decide) (by decide) rfl

/-- C5: the claim says that on a summarization failure the queue entry's
summary equals the item's original raw content verbatim.  Counterexample:
in `pollJiraTickets` the Gemini call for SC-1 throws, and the enqueued
body is the ticket's title field (`ticket.summary`), not the raw
description. -/
theorem summary_fallback_is_title_cex :
    (pollJiraTickets ("ju@x") ⟨[], []⟩ [jissC5]).final.reviewQueue
      = [⟨"[SC-1] Printer broken", "Printer broken"⟩] ∧
    jissC5.description = ("Desc text") ∧
    ("Printer broken" : String) ≠ ("Desc text") := by
  exact ⟨by decide, by decide, by decide⟩

/-- C5 (amended): enrichment is best-effort but the fallback differs by
variant: `getGeminiSummary` returns the ticket's title field on a thrown
error, a missing candidate, missing parts, or an empty joined text, while
the Vertex path of `fetchAndSummarizeEmails` falls back to the raw body
only for an empty or absent prediction — a thrown predict error there is
uncaught, aborts the loop, and produces no entry at all. -/
theorem enrichment_fallback_behavior (tk : Ticket) (b : String)
    (m : VMsg) (rest : List VMsg) (hm : m.predict = Except.error ()) :
    getGeminiSummary tk (Except.error ()) = tk.summary ∧
    getGeminiSummary tk (Except.ok []) = tk.summary ∧
    getGeminiSummary tk (Except.ok [none]) = tk.summary ∧
    getGeminiSummary tk (Except.ok [some []]) = tk.summary ∧
    vertexSummary b [] = b ∧
    vertexSummary b [none] = b ∧
    vertexSummary b [some ("")] = b ∧
    fetchAndSummarizeEmails (m :: rest) = ([], false) := by
  refine ⟨rfl, rfl, rfl, rfl, rfl, rfl, rfl, ?_⟩
  simp [fetchAndSummarizeEmails, hm]

/-- Witness for the amended C5 theorem at a concrete ticket and a concrete
failing Vertex message. -/
theorem enrichment_fallback_behavior_w :
    getGeminiSummary tkW (Except.error ()) = tkW.summary ∧
    getGeminiSummary tkW (Except.ok []) = tkW.summary ∧
    getGeminiSummary tkW (Except.ok [none]) = tkW.summary ∧
    getGeminiSummary tkW (Except.ok [some []]) = tkW.summary ∧
    vertexSummary ("Raw") [] = ("Raw") ∧
    vertexSummary ("Raw") [none] = ("Raw") ∧
    vertexSummary ("Raw") [some ("")] = ("Raw") ∧
    fetchAndSummarizeEmails (vmW :: []) = ([], false) :=
  enrichment_fallback_behavior tkW ("Raw") vmW [] rfl

lemma processReviewQueue_mem_cons (lk : Option String → Option JiraInfo)
    (x : QueueItem) (q : List QueueItem) (ev : Ev)
    (h : ev ∈ processReviewQueue lk q) : ev ∈ processReviewQueue lk (x :: q) := by
  cases hlk : lk x.jiraTicket with
  | none => simpa [processReviewQueue, hlk] using h
  | some info =>
    cases hass : info.assignee with
    | none => simpa [processReviewQueue, hlk, hass] using h
    | some b =>
      by_cases hc : (info.resolved && (b != "")) = true
      · simp only [processReviewQueue, hlk, hass, hc, if_true]
        exact List.mem_cons_of_mem _ h
      · simpa [processReviewQueue, hlk, hass, hc] using h

lemma processReviewQueue_notifies (lk : Option String → Option JiraInfo)
    (item : QueueItem) (a : String)
    (h2 : lk item.jiraTicket = some ⟨some a, true⟩) (h3 : a ≠ "") :
    ∀ q : List QueueItem, item ∈ q →
      Ev.notified item.id a ∈ processReviewQueue lk q := by
  intro q
  induction q with
  | nil => intro h; cases h
  | cons x rest ih =>
    intro hmem
    rcases List.mem_cons.mp hmem with heq | hmem'
    · subst heq
      have ha : (a != "") = true := bne_iff_ne.mpr h3
      simp [processReviewQueue, h2, ha]
    · exact processReviewQueue_mem_cons lk x rest _ (ih hmem')

lemma notifyTicks_count (lk : Option String → Option JiraInfo)
    (q : List QueueItem) (ev : Ev) :
    ∀ n, (notifyTicks lk q n).count ev = n * (processReviewQueue lk q).count ev
  | 0 => by simp [notifyTicks]
  | Nat.succ n => by
    rw [notifyTicks, List.count_append, notifyTicks_count lk q ev n,
      Nat.succ_eq_add_one]
    ring

/-- C6: the claim says a successfully notified entry is not re-notified on
later queue-processing ticks.  Counterexample: two consecutive ticks over
an unchanged one-entry queue whose ticket is resolved with an assignee
send the review email twice — nothing records the notification. -/
theorem renotify_every_tick_cex :
    notifyTicks lkC6 [itemC6] 2
      = [Ev.notified ("m1") ("as@x.y"), Ev.notified ("m1") ("as@x.y")] := by decide

/-- C6 (amended): `processReviewQueue` never marks an entry notified and
never mutates the queue, so an entry whose ticket is resolved with a
nonempty assignee is re-notified on every tick: each tick's trace contains
its notification, and over `n` ticks the notification occurs `n` times
its per-tick count, hence at least `n` times. -/
theorem resolved_entries_renotified_every_tick
    (lk : Option String → Option JiraInfo) (q : List QueueItem)
    (item : QueueItem) (a : String) (n : Nat)
    (h1 : item ∈ q) (h2 : lk item.jiraTicket = some ⟨some a, true⟩) (h3 : a ≠ "") :
    Ev.notified item.id a ∈ processReviewQueue lk q ∧
    (notifyTicks lk q n).count (Ev.notified item.id a)
      = n * (processReviewQueue lk q).count (Ev.notified item.id a) ∧
    n ≤ (notifyTicks lk q n).count (Ev.notified item.id a) := by
  have hmem := processReviewQueue_notifies lk item a h2 h3 q h1
  refine ⟨hmem, notifyTicks_count lk q _ n, ?_⟩
  rw [notifyTicks_count lk q _ n]
  have hone : 1 ≤ (processReviewQueue lk q).count (Ev.notified item.id a) :=
    List.count_pos_iff.mpr hmem
  calc n = n * 1 := (Nat.mul_one n).symm
    _ ≤ n * (processReviewQueue lk q).count (Ev.notified item.id a) :=
      Nat.mul_le_mul_left n hone

/-- Witness for the amended C6 theorem: three ticks over the concrete
one-entry queue yield three notifications. -/
theorem resolved_entries_renotified_every_tick_w :
    Ev.notified itemC6.id ("as@x.y") ∈ processReviewQueue lkC6 [itemC6] ∧
    (notifyTicks lkC6 [itemC6] 3).count (Ev.notified itemC6.id ("as@x.y"))
      = 3 * (processReviewQueue lkC6 [itemC6]).count (Ev.notified itemC6.id ("as@x.y")) ∧
    3 ≤ (notifyTicks lkC6 [itemC6] 3).count (Ev.notified itemC6.id ("as@x.y")) :=
  resolved_entries_renotified_every_tick lkC6 [itemC6] itemC6 ("as@x.y") 3
    (by decide) (by decide) (by decide)

lemma isUp_dash : isUp '-' = false := by decide

lemma takeWhile_all (p : Char → Bool) : ∀ l : List Char, (l.takeWhile p).all p = true
  | [] => rfl
  | c :: cs => by
    cases hp : p c <;> simp [List.takeWhile_cons, hp, takeWhile_all p cs]

lemma takeWhile_append_run (p : Char → Bool) :
    ∀ (us t : List Char), us.all p = true → (us ++ t).takeWhile p = us ++ t.takeWhile p
  | [], t, _ => rfl
  | u :: us, t, h => by
    rw [List.all_cons, Bool.and_eq_true] at h
    simp [List.takeWhile_cons, h.1, takeWhile_append_run p us t h.2]

lemma dropWhile_append_run (p : Char → Bool) :
    ∀ (us t : List Char), us.all p = true → (us ++ t).dropWhile p = t.dropWhile p
  | [], t, _ => rfl
  | u :: us, t, h => by
    rw [List.all_cons, Bool.and_eq_true] at h
    simp [List.dropWhile_cons, h.1, dropWhile_append_run p us t h.2]

lemma matchAt_eq_some (l m : List Char) (h : matchAt l = some m) :
    keyPat m = true ∧ begOf m l := by
  by_cases hus : l.takeWhile isUp = []
  · simp [matchAt, hus] at h
  · cases hdw : l.dropWhile isUp with
    | nil => simp [matchAt, hus, hdw] at h
    | cons c rest =>
      by_cases hc : c = '-'
      · subst hc
        by_cases hds : rest.takeWhile isDig = []
        · simp [matchAt, hus, hdw, hds] at h
        · have hm : m = l.takeWhile isUp ++ '-' :: rest.takeWhile isDig := by
            simp [matchAt, hus, hdw, hds] at h
            exact h.symm
          obtain ⟨u, us, hus'⟩ := List.exists_cons_of_ne_nil hus
          have hall := takeWhile_all isUp l
          have h1 : (l.takeWhile isUp ++ '-' :: rest.takeWhile isDig).takeWhile isUp
              = l.takeWhile isUp := by
            rw [takeWhile_append_run isUp _ _ hall]
            simp [List.takeWhile_cons, isUp_dash]
          have h2 : (l.takeWhile isUp ++ '-' :: rest.takeWhile isDig).dropWhile isUp
              = '-' :: rest.takeWhile isDig := by
            rw [dropWhile_append_run isUp _ _ hall]
            simp [List.dropWhile_cons, isUp_dash]
          constructor
          · subst hm
            simp only [keyPat]
            rw [h1, h2, hus']
            simp [hds, takeWhile_all isDig rest]
          · refine ⟨rest.dropWhile isDig, ?_⟩
            subst hm
            have hrest : rest.takeWhile isDig ++ rest.dropWhile isDig = rest :=
              List.takeWhile_append_dropWhile isDig rest
            calc (l.takeWhile isUp ++ '-' :: rest.takeWhile isDig) ++ rest.dropWhile isDig
                = l.takeWhile isUp
                    ++ '-' :: (rest.takeWhile isDig ++ rest.dropWhile isDig) := by simp
              _ = l.takeWhile isUp ++ '-' :: rest := by rw [hrest]
              _ = l.takeWhile isUp ++ l.dropWhile isUp := by rw [hdw]
              _ = l := List.takeWhile_append_dropWhile isUp l
      · simp [matchAt, hus, hdw, hc] at h

lemma matchAt_eq_none (l : List Char) (h : matchAt l = none) :
    ∀ k, keyPat k = true → ¬ begOf k l := by
  rintro k hk ⟨t, ht⟩
  cases htwk : k.takeWhile isUp with
  | nil => simp [keyPat, htwk] at hk
  | cons u us =>
    cases hdwk : k.dropWhile isUp with
    | nil => simp [keyPat, htwk, hdwk] at hk
    | cons c ds =>
      simp only [keyPat, htwk, hdwk, Bool.and_eq_true, decide_eq_true_eq] at hk
      obtain ⟨⟨hc, hds⟩, hall⟩ := hk
      subst hc
      have hk_decomp : k.takeWhile isUp ++ '-' :: ds = k := by
        rw [← hdwk]
        exact List.takeWhile_append_dropWhile isUp k
      have husall := takeWhile_all isUp k
      have hltw : l.takeWhile isUp = k.takeWhile isUp := by
        conv_lhs => rw [← ht, ← hk_decomp, List.append_assoc]
        rw [takeWhile_append_run isUp _ _ husall]
        simp [List.takeWhile_cons, isUp_dash]
      have hldw : l.dropWhile isUp = '-' :: (ds ++ t) := by
        conv_lhs => rw [← ht, ← hk_decomp, List.append_assoc]
        rw [dropWhile_append_run isUp _ _ husall]
        simp [List.dropWhile_cons, isUp_dash]
      have hlus : l.takeWhile isUp ≠ [] := by
        rw [hltw, htwk]
        exact List.cons_ne_nil u us
      cases ds with
      | nil => simp at hds
      | cons d ds' =>
        have hd : isDig d = true := by
          rw [List.all_cons, Bool.and_eq_true] at hall
          exact hall.1
        simp [matchAt, hlus, hldw, List.takeWhile_cons, hd] at h

lemma endOf_nil (w : List Char) (h : endOf w []) : w = [] := by
  obtain ⟨t, ht⟩ := h
  exact (List.append_eq_nil.mp ht).2

lemma endOf_cons (w : List Char) (c : Char) (cs : List Char)
    (h : endOf w (c :: cs)) : w = c :: cs ∨ endOf w cs := by
  obtain ⟨t, ht⟩ := h
  cases t with
  | nil => left; simpa using ht
  | cons x xs =>
    rw [List.cons_append] at ht
    injection ht with h1 h2
    exact Or.inr ⟨xs, h2⟩

lemma endOf_len (w l : List Char) (h : endOf w l) : w.length ≤ l.length := by
  obtain ⟨t, ht⟩ := h
  rw [← ht, List.length_append]
  omega

lemma endOf_refl (l : List Char) : endOf l l := ⟨[], rfl⟩

lemma firstMatch_eq_none : ∀ l : List Char, firstMatch l = none →
    ∀ w, endOf w l → matchAt w = none := by
  intro l
  induction l with
  | nil =>
    intro h w hw
    rw [endOf_nil w hw]
    rfl
  | cons c cs ih =>
    intro h w hw
    have hl : matchAt (c :: cs) = none := by
      cases hma : matchAt (c :: cs) with
      | none => rfl
      | some m => simp [firstMatch, hma] at h
    have hrest : firstMatch cs = none := by
      simpa [firstMatch, hl] using h
    rcases endOf_cons w c cs hw with rfl | hw'
    · exact hl
    · exact ih hrest w hw'

lemma firstMatch_eq_some : ∀ l m, firstMatch l = some m →
    ∃ w, endOf w l ∧ matchAt w = some m ∧
      ∀ w2, endOf w2 l → w.length < w2.length → matchAt w2 = none := by
  intro l
  induction l with
  | nil => intro m h; cases h
  | cons c cs ih =>
    intro m h
    cases hma : matchAt (c :: cs) with
    | some mm =>
      have hm : mm = m := by
        simpa [firstMatch, hma] using h
      subst hm
      refine ⟨c :: cs, endOf_refl _, hma, ?_⟩
      intro w2 hw2 hlen
      exact absurd (Nat.lt_of_lt_of_le hlen (endOf_len w2 (c :: cs) hw2))
        (Nat.lt_irrefl _)
    | none =>
      have hrest : firstMatch cs = some m := by
        simpa [firstMatch, hma] using h
      obtain ⟨w, hw, hwm, hleft⟩ := ih m hrest
      refine ⟨w, ?_, hwm, ?_⟩
      · obtain ⟨t, ht⟩ := hw
        exact ⟨c :: t, by rw [← ht]; rfl⟩
      · intro w2 hw2 hlen
        rcases endOf_cons w2 c cs hw2 with rfl | hw2'
        · exact hma
        · exact hleft w2 hw2' hlen

lemma subOf_iff (k l : List Char) :
    subOf k l ↔ ∃ w, endOf w l ∧ begOf k w := by
  constructor
  · rintro ⟨u, v, huv⟩
    exact ⟨k ++ v, ⟨u, by rw [← huv, List.append_assoc]⟩, ⟨v, rfl⟩⟩
  · rintro ⟨w, ⟨t, htw⟩, ⟨v, hvw⟩⟩
    exact ⟨t, v, by rw [List.append_assoc, hvw, htw]⟩

/-- C9: `extractJiraTicket` is total (never throws) and implements
leftmost matching of the fixed pattern uppercase-run, hyphen, digit-run:
when it returns a key, that key matches the pattern, occurs in the
subject, and starts at the earliest position at which any anchored match
exists (every strictly longer tail of the subject admits no anchored
match); when it returns none, no substring of the subject matches the
pattern — in particular for lowercase variants; with several candidate
keys the first one wins. -/
theorem extractJiraTicket_correct (s : String) :
    (∀ t : String, extractJiraTicket s = some t →
        keyPat t.data = true ∧ subOf t.data s.data ∧
        ∃ w, endOf w s.data ∧ matchAt w = some t.data ∧
          ∀ w2, endOf w2 s.data → w.length < w2.length → matchAt w2 = none) ∧
    (extractJiraTicket s = none →
        ∀ k : List Char, keyPat k = true → ¬ subOf k s.data) ∧
    extractJiraTicket ("abc-123") = none ∧
    extractJiraTicket ("Fwd: Internal ABC-123 and XYZ-9") = some ("ABC-123") := by
  refine ⟨?_, ?_, by decide, by decide⟩
  · intro t ht
    have hfm : firstMatch s.data = some t.data := by
      unfold extractJiraTicket at ht
      cases hf : firstMatch s.data with
      | none => rw [hf] at ht; cases ht
      | some m =>
        rw [hf] at ht
        have ht' : String.mk m = t := Option.some.inj ht
        rw [← ht']
    obtain ⟨w, hw, hwm, hleft⟩ := firstMatch_eq_some s.data t.data hfm
    obtain ⟨hkey, hbeg⟩ := matchAt_eq_some w t.data hwm
    exact ⟨hkey, (subOf_iff t.data s.data).mpr ⟨w, hw, hbeg⟩, ⟨w, hw, hwm, hleft⟩⟩
  · intro hn k hk hsub
    have hfm : firstMatch s.data = none := by
      unfold extractJiraTicket at hn
      cases hf : firstMatch s.data with
      | none => rfl
      | some m => rw [hf] at hn; cases hn
    obtain ⟨w, hw, hbeg⟩ := (subOf_iff k s.data).mp hsub
    exact matchAt_eq_none w (firstMatch_eq_none s.data hfm w hw) k hk hbeg

/-- Witness for C9 applied at a concrete subject containing one key. -/
theorem extractJiraTicket_correct_w :
    keyPat ("AB-12").data = true ∧ subOf ("AB-12").data ("x AB-12y").data ∧
    (∃ w, endOf w ("x AB-12y").data ∧ matchAt w = some ("AB-12").data ∧
      ∀ w2, endOf w2 ("x AB-12y").data → w.length < w2.length → matchAt w2 = none) :=
  (extractJiraTicket_correct ("x AB-12y")).1 ("AB-12") (by decide)
